import Mathlib

/-!
Verification of the SemantiCore Ontology Lifecycle & Graph Materialization
Engine specification against the repository's code.

The repository ships the React frontend (wizard, API clients, polling hook)
and documentation; the backend core (job ledger, ontology version store,
materialization engine, query gate) is reached only through HTTP clients.
Definitions below are translated from the frontend sources where the code
exists; backend operations that the sources only call are modelled from the
specification and carry a doc comment saying so.
-/

/-- Job status union from `src/frontend/src/api/jobs.ts` (`JobStatus.status`):
`'pending' | 'running' | 'completed' | 'failed'`. -/
inductive JobStatus where
  | pending
  | running
  | completed
  | failed
deriving DecidableEq, Repr

/-- Job record, embedding the `JobStatus` interface of
`src/frontend/src/api/jobs.ts` (`id`, `project_id`, `type`, `status`,
`progress`, `result?`, `error?`, timestamps). Progress is a rational in
place of the TS `number`. -/
structure Job where
  id : String
  project_id : String
  jobType : String
  status : JobStatus
  progress : ℚ
  result : Option String
  error : Option String
  created_at : String
  started_at : Option String
  completed_at : Option String
deriving DecidableEq, Repr

/-- Modelled from the spec: the Job Ledger state machine of section 4.1,
`pending -> running -> {completed, failed}`, with no other transitions.
The worker that performs these transitions is not under `src/`. -/
def jobStep (a b : JobStatus) : Bool :=
  match a, b with
  | .pending, .running => true
  | .running, .completed => true
  | .running, .failed => true
  | _, _ => false

/-- A status is terminal when it is `completed` or `failed`. -/
def isTerminal (s : JobStatus) : Bool :=
  s == .completed || s == .failed

/-- Terminal statuses have no outgoing transition in the state machine. -/
theorem jobStep_not_terminal {a b : JobStatus} (h : jobStep a b = true) :
    isTerminal a = false := by
  cases a <;> cases b <;> simp_all [jobStep, isTerminal]

/-- C4: in any sequence of observations of a single job in which each
observation either repeats the previous one or follows one transition of the
`pending -> running -> {completed, failed}` state machine, once the job is
observed `completed` or `failed` every later observation reports the same
terminal status, and in particular never `pending` or `running`. -/
theorem job_status_monotonic (obs : ℕ → JobStatus)
    (htraj : ∀ n, obs (n + 1) = obs n ∨ jobStep (obs n) (obs (n + 1)) = true)
    (i j : ℕ) (hij : i ≤ j) (hterm : isTerminal (obs i) = true) :
    obs j = obs i ∧ obs j ≠ .pending ∧ obs j ≠ .running := by
  have hstable : obs j = obs i := by
    induction j, hij using Nat.le_induction with
    | base => rfl
    | succ n hn ih =>
      rcases htraj n with heq | hstep
      · rw [heq, ih]
      · rw [ih] at hstep
        exact absurd (jobStep_not_terminal hstep) (by simp [hterm])
  refine ⟨hstable, ?_, ?_⟩ <;> rw [hstable] <;>
    rcases hs : obs i with _ | _ | _ | _ <;> simp_all [isTerminal]

/-- Concrete observation sequence used to witness `job_status_monotonic`. -/
def obsWitness : ℕ → JobStatus :=
  fun n =>
    match n with
    | 0 => .pending
    | 1 => .running
    | _ + 2 => .completed

/-- Witness for C4: the trace pending, running, completed, completed, ... is a
valid trajectory, and the observation at time 5 equals the terminal
observation at time 2. -/
theorem job_status_monotonic_witness :
    obsWitness 5 = obsWitness 2 ∧ obsWitness 5 ≠ .pending ∧ obsWitness 5 ≠ .running :=
  job_status_monotonic obsWitness
    (fun n => by
      match n with
      | 0 => exact Or.inr (by decide)
      | 1 => exact Or.inr (by decide)
      | m + 2 => exact Or.inl rfl)
    2 5 (by decide) (by decide)

/-- `MAX_FILE_SIZE` from `src/frontend/constants.tsx`: `50 * 1024 * 1024`. -/
def MAX_FILE_SIZE : ℕ := 50 * 1024 * 1024

/-- `SUPPORTED_FILE_TYPES` from `src/frontend/constants.tsx`. -/
def SUPPORTED_FILE_TYPES : List String :=
  [ "text/csv"
  , "application/json"
  , "application/pdf"
  , "application/vnd.openxmlformats-officedocument.wordprocessingml.document"
  , "text/plain" ]

/-- `FILE_TYPE_EXTENSIONS` from `src/frontend/constants.tsx`, as an
extension-to-MIME association list. -/
def FILE_TYPE_EXTENSIONS : List (String × String) :=
  [ ("csv", "text/csv")
  , ("json", "application/json")
  , ("pdf", "application/pdf")
  , ("docx", "application/vnd.openxmlformats-officedocument.wordprocessingml.document")
  , ("txt", "text/plain") ]

/-- C10: `MAX_FILE_SIZE` is exactly 52428800 bytes, `SUPPORTED_FILE_TYPES` is
exactly the five MIME types for csv, json, pdf, docx and plain text, and every
value of the `FILE_TYPE_EXTENSIONS` map is a member of
`SUPPORTED_FILE_TYPES`. -/
theorem upload_constants_spec :
    MAX_FILE_SIZE = 52428800
    ∧ SUPPORTED_FILE_TYPES =
      [ "text/csv"
      , "application/json"
      , "application/pdf"
      , "application/vnd.openxmlformats-officedocument.wordprocessingml.document"
      , "text/plain" ]
    ∧ FILE_TYPE_EXTENSIONS.all
        (fun kv => SUPPORTED_FILE_TYPES.contains kv.2) = true := by
  refine ⟨by norm_num [MAX_FILE_SIZE], rfl, by decide⟩

/-- Ontology version status from spec section 3:
`status ∈ {proposed, active, superseded}`. -/
inductive VersionStatus where
  | proposed
  | active
  | superseded
deriving DecidableEq, Repr

/-- Ontology version record, from spec section 3 and the client
`src/unnamed/part_001` (`listOntologyVersions` / `acceptOntologyVersion`).
Classes and relation types are not needed for the store-level claims. -/
structure OntologyVersion where
  id : String
  project_id : String
  sequence_number : ℕ
  status : VersionStatus
deriving DecidableEq, Repr

/-- Errors of the ontology store operations, from spec section 7. -/
inductive OntError where
  | NotFoundError
  | ConflictError
  | ValidationError
deriving DecidableEq, Repr

/-- Modelled from the spec: the Ontology Version Store state. The backend
store behind `/ontology/...` is not under `src/`. `acceptInFlight` records
the projects for which an `Accept` is currently in flight (spec section 5:
a per-project mutual-exclusion check). -/
structure OntStore where
  versions : List OntologyVersion
  acceptInFlight : List String
deriving DecidableEq, Repr

/-- The empty ontology store. -/
def initOntStore : OntStore := ⟨[], []⟩

/-- Modelled from the spec: starting an `Accept(version_id)` call. It fails
with `NotFoundError` if the version does not exist and with `ConflictError`
if another accept is concurrently in flight for the same project
(spec sections 4.2 and 5); otherwise it registers the in-flight accept. -/
def beginAccept (s : OntStore) (vid : String) : Except OntError OntStore :=
  match s.versions.find? (fun v => v.id == vid) with
  | none => .error .NotFoundError
  | some v0 =>
    if v0.project_id ∈ s.acceptInFlight then .error .ConflictError
    else .ok { s with acceptInFlight := v0.project_id :: s.acceptInFlight }

/-- Modelled from the spec: the single atomic state change of `Accept`
(spec section 4.2): the target version becomes `active` and every other
previously `active` version of the same project becomes `superseded`. -/
def acceptUpdate (p vid : String) (v : OntologyVersion) : OntologyVersion :=
  if v.id = vid then { v with status := .active }
  else if v.project_id = p ∧ v.status = .active then { v with status := .superseded }
  else v

/-- Modelled from the spec: committing an in-flight `Accept(version_id)`:
one atomic write applies `acceptUpdate` to every stored version and releases
the in-flight marker. -/
def commitAccept (s : OntStore) (vid : String) : Except OntError OntStore :=
  match s.versions.find? (fun v => v.id == vid) with
  | none => .error .NotFoundError
  | some v0 =>
    .ok { versions := s.versions.map (acceptUpdate v0.project_id vid)
        , acceptInFlight := s.acceptInFlight.erase v0.project_id }

/-- Modelled from the spec: the transitions of the Ontology Version Store.
`Propose` appends a fresh version with status `proposed` (spec section 4.2,
append-only history); `beginAccept` and `commitAccept` are the two halves of
an `Accept` call. -/
inductive OntStep : OntStore → OntStore → Prop where
  | propose (s : OntStore) (v : OntologyVersion)
      (hfresh : ∀ w ∈ s.versions, w.id ≠ v.id)
      (hst : v.status = .proposed) :
      OntStep s { s with versions := s.versions ++ [v] }
  | beginStep (s : OntStore) (vid : String) (s2 : OntStore)
      (h : beginAccept s vid = .ok s2) : OntStep s s2
  | commitStep (s : OntStore) (vid : String) (s2 : OntStore)
      (h : commitAccept s vid = .ok s2) : OntStep s s2

/-- States of the ontology store reachable from the empty store. -/
def ReachableOnt (s : OntStore) : Prop :=
  Relation.ReflTransGen OntStep initOntStore s

/-- Version ids are pairwise distinct. -/
def IdsNodup (l : List OntologyVersion) : Prop :=
  (l.map (fun v => v.id)).Nodup

/-- At most one version per project is `active`: any two active versions of
the same project are the same version. -/
def ActiveUnique (l : List OntologyVersion) : Prop :=
  ∀ v ∈ l, ∀ w ∈ l, v.status = .active → w.status = .active →
    v.project_id = w.project_id → v = w

/-- Store invariant: distinct ids and per-project uniqueness of `active`. -/
def OntInv (s : OntStore) : Prop :=
  IdsNodup s.versions ∧ ActiveUnique s.versions

/-- Distinct ids make the id an injective key on the stored versions. -/
theorem idsNodup_inj {l : List OntologyVersion} (h : IdsNodup l) :
    ∀ v ∈ l, ∀ w ∈ l, v.id = w.id → v = w := by
  induction l with
  | nil => intro v hv; simp at hv
  | cons a t ih =>
    simp only [IdsNodup, List.map_cons, List.nodup_cons] at h
    intro v hv w hw hid
    rcases List.mem_cons.mp hv with rfl | hv2 <;>
      rcases List.mem_cons.mp hw with rfl | hw2
    · rfl
    · exact absurd (hid ▸ List.mem_map_of_mem (fun x => x.id) hw2) h.1
    · exact absurd (hid ▸ List.mem_map_of_mem (fun x => x.id) hv2) h.1
    · exact ih h.2 v hv2 w hw2 hid

/-- `acceptUpdate` never changes the id of a version. -/
theorem acceptUpdate_id (p vid : String) (v : OntologyVersion) :
    (acceptUpdate p vid v).id = v.id := by
  unfold acceptUpdate; split <;> [rfl; split <;> rfl]

/-- Case analysis of an active version after `acceptUpdate`: it is either the
accepted version itself or an untouched active version of another project. -/
theorem acceptUpdate_active {p vid : String} {v : OntologyVersion}
    (h : (acceptUpdate p vid v).status = .active) :
    v.id = vid ∨ (v.project_id ≠ p ∧ v.status = .active ∧ acceptUpdate p vid v = v) := by
  by_cases h1 : v.id = vid
  · exact Or.inl h1
  · unfold acceptUpdate at h
    rw [if_neg h1] at h
    by_cases h2 : v.project_id = p ∧ v.status = .active
    · rw [if_pos h2] at h
      simp at h
    · rw [if_neg h2] at h
      refine Or.inr ⟨fun hp => h2 ⟨hp, h⟩, h, ?_⟩
      unfold acceptUpdate
      rw [if_neg h1, if_neg h2]

/-- `acceptUpdate` never changes the project of a version. -/
theorem acceptUpdate_project (p vid : String) (v : OntologyVersion) :
    (acceptUpdate p vid v).project_id = v.project_id := by
  unfold acceptUpdate; split <;> [rfl; split <;> rfl]

/-- A successful `beginAccept` leaves the stored versions untouched. -/
theorem beginAccept_versions {s : OntStore} {vid : String} {s2 : OntStore}
    (h : beginAccept s vid = .ok s2) : s2.versions = s.versions := by
  unfold beginAccept at h
  split at h
  · cases h
  · split at h
    · cases h
    · cases h; rfl

/-- Shape of a successful `commitAccept`: the version looked up by id exists
and every stored version goes through `acceptUpdate` in one atomic write. -/
theorem commitAccept_ok {s : OntStore} {vid : String} {s2 : OntStore}
    (h : commitAccept s vid = .ok s2) :
    ∃ v0, s.versions.find? (fun v => v.id == vid) = some v0 ∧
      s2.versions = s.versions.map (acceptUpdate v0.project_id vid) := by
  unfold commitAccept at h
  split at h
  · cases h
  · next v0 hf =>
    cases h
    exact ⟨v0, hf, rfl⟩

/-- If ids are distinct and the id-keyed lookup of `vid` returns `v0`, then
every stored version whose id is `vid` is `v0` itself. -/
theorem find?_id_unique {l : List OntologyVersion} {vid : String} {v0 : OntologyVersion}
    (hnd : IdsNodup l) (hf : l.find? (fun v => v.id == vid) = some v0) :
    ∀ v ∈ l, v.id = vid → v = v0 := by
  intro v hv hvid
  have h0 : v0 ∈ l := List.mem_of_find?_eq_some hf
  have h1 : v0.id = vid := by
    have := List.find?_some hf
    simpa using this
  exact idsNodup_inj hnd v hv v0 h0 (hvid.trans h1.symm)

/-- `IdsNodup` is preserved by the atomic accept write. -/
theorem idsNodup_map_acceptUpdate {l : List OntologyVersion} (p vid : String)
    (h : IdsNodup l) : IdsNodup (l.map (acceptUpdate p vid)) := by
  unfold IdsNodup at *
  rw [List.map_map]
  have heq : ((fun v : OntologyVersion => v.id) ∘ acceptUpdate p vid) =
      fun v : OntologyVersion => v.id := by
    funext v
    simp [Function.comp, acceptUpdate_id]
  rw [heq]
  exact h

/-- `ActiveUnique` is preserved by the atomic accept write, provided every
version carrying the accepted id belongs to the accepted project. -/
theorem activeUnique_map_acceptUpdate {l : List OntologyVersion} {p vid : String}
    (hnd : IdsNodup l) (hau : ActiveUnique l)
    (hkey : ∀ v ∈ l, v.id = vid → v.project_id = p) :
    ActiveUnique (l.map (acceptUpdate p vid)) := by
  intro x hx y hy hxa hya hxy
  rcases List.mem_map.mp hx with ⟨v, hv, rfl⟩
  rcases List.mem_map.mp hy with ⟨w, hw, rfl⟩
  rcases acceptUpdate_active hxa with hv1 | ⟨hvp, hva, hveq⟩ <;>
    rcases acceptUpdate_active hya with hw1 | ⟨hwp, hwa, hweq⟩
  · rw [idsNodup_inj hnd v hv w hw (hv1.trans hw1.symm)]
  · exfalso
    apply hwp
    rw [hweq, acceptUpdate_project] at hxy
    rw [← hxy]
    exact hkey v hv hv1
  · exfalso
    apply hvp
    rw [hveq, acceptUpdate_project] at hxy
    rw [hxy]
    exact hkey w hw hw1
  · rw [hveq, hweq] at hxy ⊢
    exact hau v hv w hw hva hwa hxy

/-- The store invariant is preserved by every transition of the store. -/
theorem ontInv_step {s s2 : OntStore} (hstep : OntStep s s2) (hinv : OntInv s) :
    OntInv s2 := by
  rcases hinv with ⟨hnd, hau⟩
  cases hstep with
  | propose v hfresh hst =>
    constructor
    · unfold IdsNodup at *
      rw [List.map_append, List.nodup_append]
      refine ⟨hnd, List.nodup_singleton _, ?_⟩
      intro x hx hy
      simp only [List.map_cons, List.map_nil, List.mem_singleton] at hy
      rcases List.mem_map.mp hx with ⟨w, hw, rfl⟩
      exact hfresh w hw (by rw [hy])
    · intro x hx y hy hxa hya hxy
      have hvna : v.status ≠ VersionStatus.active := by rw [hst]; intro hc; cases hc
      rcases List.mem_append.mp hx with hx2 | hx2 <;>
        rcases List.mem_append.mp hy with hy2 | hy2
      · exact hau x hx2 y hy2 hxa hya hxy
      · rw [List.mem_singleton.mp hy2] at hya
        exact absurd hya hvna
      · rw [List.mem_singleton.mp hx2] at hxa
        exact absurd hxa hvna
      · rw [List.mem_singleton.mp hx2, List.mem_singleton.mp hy2]
  | beginStep vid s2 h =>
    unfold OntInv
    rw [beginAccept_versions h]
    exact ⟨hnd, hau⟩
  | commitStep vid s2 h =>
    rcases commitAccept_ok h with ⟨v0, hf, hvers⟩
    unfold OntInv
    rw [hvers]
    have hkey : ∀ v ∈ s.versions, v.id = vid → v.project_id = v0.project_id :=
      fun v hv hid => by rw [find?_id_unique hnd hf v hv hid]
    exact ⟨idsNodup_map_acceptUpdate _ _ hnd,
      activeUnique_map_acceptUpdate hnd hau hkey⟩

/-- Every reachable ontology store satisfies the invariant. -/
theorem ontInv_reachable {s : OntStore} (h : ReachableOnt s) : OntInv s := by
  induction h with
  | refl =>
    constructor
    · simp [initOntStore, IdsNodup]
    · intro v hv
      simp [initOntStore] at hv
  | tail _ hstep ih => exact ontInv_step hstep ih

/-- C1: for every reachable ontology store, at most one version per project is
`active` (any two active versions of one project coincide); a committed
`Accept` supersedes, in the same atomic write, every other previously active
version of the project; and while an accept is in flight for a project, a
concurrent `Accept` of a version of that project fails with `ConflictError`. -/
theorem active_version_unique :
    (∀ s, ReachableOnt s → ActiveUnique s.versions)
    ∧ (∀ s vid s2 v0, commitAccept s vid = .ok s2 →
        s.versions.find? (fun v => v.id == vid) = some v0 →
        ∀ v ∈ s.versions, v.project_id = v0.project_id → v.id ≠ vid →
          v.status = .active → { v with status := .superseded } ∈ s2.versions)
    ∧ (∀ s vid v0, s.versions.find? (fun v => v.id == vid) = some v0 →
        v0.project_id ∈ s.acceptInFlight →
        beginAccept s vid = .error .ConflictError) := by
  refine ⟨fun s h => (ontInv_reachable h).2, ?_, ?_⟩
  · intro s vid s2 v0 hc hf v hv hp hne ha
    rcases commitAccept_ok hc with ⟨w0, hf2, hvers⟩
    have hw0 : w0 = v0 := Option.some.inj (hf2.symm.trans hf)
    rw [hw0] at hvers
    have hupd : acceptUpdate v0.project_id vid v = { v with status := .superseded } := by
      unfold acceptUpdate
      rw [if_neg hne, if_pos ⟨hp, ha⟩]
    rw [hvers]
    exact hupd ▸ List.mem_map_of_mem (acceptUpdate v0.project_id vid) hv
  · intro s vid v0 hf hm
    simp only [beginAccept, hf]
    rw [if_pos hm]

/-- First proposed version used in the C1 witness trace. -/
def vW1 : OntologyVersion := ⟨"v1", "p", 1, .proposed⟩

/-- Second proposed version used in the C1 witness trace. -/
def vW2 : OntologyVersion := ⟨"v2", "p", 2, .proposed⟩

/-- Store after proposing `vW1`. -/
def sW1 : OntStore := ⟨[vW1], []⟩

/-- Store after `beginAccept` of `v1`. -/
def sW2 : OntStore := ⟨[vW1], ["p"]⟩

/-- Store after committing the accept of `v1`: `v1` is active. -/
def sW3 : OntStore := ⟨[⟨"v1", "p", 1, .active⟩], []⟩

/-- Store after proposing `vW2`. -/
def sW4 : OntStore := ⟨[⟨"v1", "p", 1, .active⟩, vW2], []⟩

/-- Store after `beginAccept` of `v2`: an accept is in flight for `p`. -/
def sW5 : OntStore := ⟨[⟨"v1", "p", 1, .active⟩, vW2], ["p"]⟩

/-- Store after committing the accept of `v2`: `v1` is superseded. -/
def sW6 : OntStore := ⟨[⟨"v1", "p", 1, .superseded⟩, ⟨"v2", "p", 2, .active⟩], []⟩

/-- The C1 witness trace reaches `sW5` from the empty store. -/
theorem sW5_reachable : ReachableOnt sW5 := by
  have r1 : OntStep initOntStore sW1 :=
    OntStep.propose initOntStore vW1 (by decide) rfl
  have r2 : OntStep sW1 sW2 := OntStep.beginStep sW1 "v1" sW2 rfl
  have r3 : OntStep sW2 sW3 := OntStep.commitStep sW2 "v1" sW3 rfl
  have r4 : OntStep sW3 sW4 :=
    OntStep.propose sW3 vW2 (by decide) rfl
  have r5 : OntStep sW4 sW5 := OntStep.beginStep sW4 "v2" sW5 rfl
  exact Relation.ReflTransGen.tail
    (Relation.ReflTransGen.tail
      (Relation.ReflTransGen.tail
        (Relation.ReflTransGen.tail (Relation.ReflTransGen.single r1) r2) r3) r4) r5

/-- Witness for C1: in the concrete reachable store `sW5` the active-version
uniqueness applies to the active `v1`; a concurrent accept of `v2` while one
is in flight for project `p` gets `ConflictError`; and committing the accept
of `v2` supersedes `v1` in the same write. -/
theorem active_version_unique_witness :
    (⟨"v1", "p", 1, .active⟩ : OntologyVersion) = ⟨"v1", "p", 1, .active⟩
    ∧ beginAccept sW5 "v2" = .error .ConflictError
    ∧ (⟨"v1", "p", 1, .superseded⟩ : OntologyVersion) ∈ sW6.versions := by
  have h := active_version_unique
  refine ⟨?_, ?_, ?_⟩
  · exact h.1 sW5 sW5_reachable ⟨"v1", "p", 1, .active⟩ (by decide)
      ⟨"v1", "p", 1, .active⟩ (by decide) rfl rfl rfl
  · exact h.2.2 sW5 "v2" vW2 (by decide) (by decide)
  · exact h.2.1 sW5 "v2" sW6 vW2 rfl (by decide)
      ⟨"v1", "p", 1, .active⟩ (by decide) rfl (by decide) rfl

/-- Generic keyed upsert of a list of items into a finite map, left to right:
later items with the same key overwrite earlier ones. This is the graph
MERGE semantics the spec assigns to materialization (section 4.4). -/
def upsertFold {α : Type} [DecidableEq α] {β : Type} (key : β → α)
    (items : List β) (m : Finmap (fun _ : α => β)) : Finmap (fun _ : α => β) :=
  items.foldl (fun acc it => acc.insert (key it) it) m

/-- Lookup after an upsert fold: the last item with the sought key wins, and
keys not written by the fold keep their previous binding. -/
theorem lookup_upsertFold {α : Type} [DecidableEq α] {β : Type} (key : β → α)
    (items : List β) (m : Finmap (fun _ : α => β)) (k : α) :
    (upsertFold key items m).lookup k =
      match items.reverse.find? (fun it => decide (key it = k)) with
      | some it => some it
      | none => m.lookup k := by
  induction items using List.reverseRecOn with
  | nil => simp [upsertFold]
  | append_singleton l a ih =>
    rw [upsertFold, List.foldl_append]
    simp only [List.foldl_cons, List.foldl_nil, List.reverse_append,
      List.reverse_cons, List.reverse_nil, List.nil_append, List.singleton_append,
      List.find?]
    by_cases hk : key a = k
    · rw [← hk]
      simp [Finmap.lookup_insert]
    · have hne : k ≠ key a := fun hc => hk hc.symm
      rw [Finmap.lookup_insert_of_ne _ hne]
      rw [decide_eq_false hk]
      exact ih

/-- Re-running the same keyed upserts is the identity: the map is unchanged. -/
theorem upsertFold_idem {α : Type} [DecidableEq α] {β : Type} (key : β → α)
    (items : List β) (m : Finmap (fun _ : α => β)) :
    upsertFold key items (upsertFold key items m) = upsertFold key items m := by
  apply Finmap.ext_lookup
  intro k
  rw [lookup_upsertFold]
  cases hf : items.reverse.find? (fun it => decide (key it = k)) with
  | none => simp
  | some it =>
    simp only
    rw [lookup_upsertFold, hf]

/-- Canonical record, from spec section 6: normalized, provenance-tagged
input to materialization. -/
structure CanonicalRecord where
  id : String
  fields : List (String × String)
deriving DecidableEq, Repr

/-- Graph instance node, from spec section 3. -/
structure Instance where
  project_id : String
  source_record_id : String
  class_name : String
  properties : List (String × String)
deriving DecidableEq, Repr

/-- The deterministic identity of an instance, from spec section 4.4:
`(project_id, source_record_id, class_name)`. -/
def instanceKey (i : Instance) : String × String × String :=
  (i.project_id, i.source_record_id, i.class_name)

/-- Graph relationship edge, from spec section 3. -/
structure InstanceRelationship where
  source_instance_id : String
  target_instance_id : String
  relation_type_name : String
deriving DecidableEq, Repr

/-- The identity of a relationship: its two endpoints and its type. -/
def relationshipKey (r : InstanceRelationship) : String × String × String :=
  (r.source_instance_id, r.target_instance_id, r.relation_type_name)

/-- The property graph: instance nodes and relationship edges, each stored
keyed by its identity (the storage engine of spec section 1 offers keyed
single-statement writes). -/
structure GraphDB where
  instances : Finmap (fun _ : String × String × String => Instance)
  relationships : Finmap (fun _ : String × String × String => InstanceRelationship)

/-- Modelled from the spec: the instance produced for one canonical record
under a caller-assigned class (spec section 4.4). -/
def mkInstance (proj : String) (r : CanonicalRecord) (cls : String) : Instance :=
  ⟨proj, r.id, cls, r.fields⟩

/-- Materialization payload: the caller-assigned record-to-class mapping and
the explicitly supplied relationships (spec section 4.4). -/
structure MaterializePayload where
  mapping : List (CanonicalRecord × String)
  relationships : List InstanceRelationship

/-- Modelled from the spec: the Materialization Engine (spec section 4.4),
which is not under `src/`. Each record becomes one instance keyed by
`(project_id, source_record_id, class_name)` and each supplied relationship
one edge; both writes are upserts, not duplicate inserts. -/
def materialize (proj : String) (payload : MaterializePayload) (g : GraphDB) : GraphDB :=
  { instances :=
      upsertFold instanceKey
        (payload.mapping.map (fun rc => mkInstance proj rc.1 rc.2)) g.instances
  , relationships :=
      upsertFold relationshipKey payload.relationships g.relationships }

/-- C6: `Materialize` is idempotent: on an unchanged record set, mapping and
relationship list, running it a second time leaves the instance and
relationship stores exactly as after the first run (so no duplicates arise),
and instance identity is exactly `(project_id, source_record_id, class_name)`
of the source record. -/
theorem materialize_idempotent (proj : String) (payload : MaterializePayload)
    (g : GraphDB) :
    materialize proj payload (materialize proj payload g) = materialize proj payload g
    ∧ ∀ r cls, instanceKey (mkInstance proj r cls) = (proj, r.id, cls) := by
  constructor
  · unfold materialize
    congr 1 <;> exact upsertFold_idem _ _ _
  · intro r cls
    rfl

/-- The whole-system state of the core: job ledger, ontology store and
property graph (spec section 2). -/
structure SysState where
  jobs : List Job
  ontology : OntStore
  graph : GraphDB

/-- Modelled from the spec: `Get(job_id)` of the Job Ledger (spec section
4.1), reached from `src/frontend/src/api/jobs.ts` (`getJobStatus`) via HTTP.
It pairs the looked-up snapshot with the (unchanged) system state. -/
def getJob (s : SysState) (jobId : String) : Option Job × SysState :=
  (s.jobs.find? (fun j => j.id == jobId), s)

/-- C7: `Get(job_id)` never mutates anything — the job ledger, ontology
store and graph after the call are the very state from before — and the value
it returns is the current snapshot: a returned job is a ledger entry with
the requested id, and `none` is returned exactly when no entry has the id. -/
theorem get_job_snapshot (s : SysState) (jobId : String) :
    (getJob s jobId).2 = s
    ∧ (∀ j, (getJob s jobId).1 = some j → j ∈ s.jobs ∧ j.id = jobId)
    ∧ ((getJob s jobId).1 = none → ∀ j ∈ s.jobs, j.id ≠ jobId) := by
  refine ⟨rfl, ?_, ?_⟩
  · intro j hj
    simp only [getJob] at hj
    refine ⟨List.mem_of_find?_eq_some hj, ?_⟩
    have := List.find?_some hj
    simpa using this
  · intro hn j hj
    simp only [getJob] at hn
    rw [List.find?_eq_none] at hn
    intro hc
    exact absurd (by simpa using hc) (hn j hj)

/-- Concrete job used in the C7 witness. -/
def jobW : Job :=
  ⟨"j1", "p", "extract", .completed, 1, some "ok", none, "t0", some "t1", some "t2"⟩

/-- Concrete system state used in the C7 witness. -/
def sysW : SysState := ⟨[jobW], initOntStore, ⟨∅, ∅⟩⟩

/-- Witness for C7: on a one-job ledger, `Get` of the present id leaves the
state unchanged and returns that ledger entry, and `Get` of an absent id
reports every ledger entry as having a different id. -/
theorem get_job_snapshot_witness :
    (getJob sysW "j1").2 = sysW
    ∧ (jobW ∈ sysW.jobs ∧ jobW.id = "j1")
    ∧ jobW.id ≠ "nope" := by
  refine ⟨(get_job_snapshot sysW "j1").1, ?_, ?_⟩
  · exact (get_job_snapshot sysW "j1").2.1 jobW rfl
  · exact (get_job_snapshot sysW "nope").2.2 rfl jobW (by simp [sysW])

/-- Kinds of clauses a translated query plan can contain (spec section 4.5:
create/delete/set are the graph-mutating ones). -/
inductive ClauseKind where
  | createClause
  | deleteClause
  | setClause
  | matchClause
  | returnClause
deriving DecidableEq, Repr

/-- What a clause acts on: nodes or relationships. -/
inductive GraphTarget where
  | nodeTarget
  | relationshipTarget
deriving DecidableEq, Repr

/-- One clause of a translated query plan. -/
structure QueryClause where
  kind : ClauseKind
  target : GraphTarget
deriving DecidableEq, Repr

/-- A translated query plan: its clauses, the statement text, and the
parameter bindings the statement refers to (spec section 4.5: bound
parameters, no string-built literals). -/
structure QueryPlan where
  clauses : List QueryClause
  statement : String
  parameters : List (String × String)
deriving DecidableEq, Repr

/-- A clause is graph-mutating when it creates, deletes or sets nodes or
relationships. -/
def isMutatingClause (c : QueryClause) : Bool :=
  c.kind == .createClause || c.kind == .deleteClause || c.kind == .setClause

/-- A plan is mutating when any of its clauses is. -/
def containsMutation (p : QueryPlan) : Bool :=
  p.clauses.any isMutatingClause

/-- One result row, shaped like the rows the query step of
`src/frontend/components/ProjectWizard.tsx` displays (`node`, `data`). -/
structure Row where
  node : String
  data : String
deriving DecidableEq, Repr

/-- Modelled from the spec: the fixed row cap of the Query Gate
(spec section 4.5 leaves the value open; 100 stands in for it). -/
def QUERY_ROW_LIMIT : ℕ := 100

/-- The statement text the gate hands to the storage engine: exactly the
plan's statement, with parameters passed alongside, never spliced in. -/
def sentStatement (p : QueryPlan) : String :=
  p.statement

/-- Outcome of a query job: terminal status, optional error, result rows. -/
structure QueryJobResult where
  status : JobStatus
  error : Option String
  rows : List Row
deriving DecidableEq, Repr

/-- Modelled from the spec: `Execute(project_id, query_plan)` of the Query
Gate (spec section 4.5), which is not under `src/`. The gate first checks
the plan for graph-mutating clauses: a mutating plan fails the job with
`UnsafeQueryError` before any engine call; an accepted plan is run by the
storage engine (`engine`, given the statement and the bindings) and its rows
are returned capped at `QUERY_ROW_LIMIT`. -/
def executeQueryPlan
    (engine : GraphDB → String → List (String × String) → List Row × GraphDB)
    (g : GraphDB) (p : QueryPlan) : QueryJobResult × GraphDB :=
  if containsMutation p then
    (⟨.failed, some "UnsafeQueryError", []⟩, g)
  else
    let res := engine g (sentStatement p) p.parameters
    (⟨.completed, none, res.1.take QUERY_ROW_LIMIT⟩, res.2)

/-- Number of instance nodes in the graph. -/
def nodeCount (g : GraphDB) : ℕ := g.instances.entries.card

/-- Number of relationship edges in the graph. -/
def edgeCount (g : GraphDB) : ℕ := g.relationships.entries.card

/-- C2: a query plan containing any graph-mutating clause (create, delete or
set on nodes or relationships) is rejected by the gate before execution,
whatever the storage engine would do: the job fails with `UnsafeQueryError`
and the graph — in particular its node and edge counts — is unchanged. -/
theorem query_gate_rejects_mutation
    (engine : GraphDB → String → List (String × String) → List Row × GraphDB)
    (g : GraphDB) (p : QueryPlan) (hmut : containsMutation p = true) :
    (executeQueryPlan engine g p).1.status = .failed
    ∧ (executeQueryPlan engine g p).1.error = some "UnsafeQueryError"
    ∧ (executeQueryPlan engine g p).2 = g
    ∧ nodeCount (executeQueryPlan engine g p).2 = nodeCount g
    ∧ edgeCount (executeQueryPlan engine g p).2 = edgeCount g := by
  unfold executeQueryPlan
  rw [if_pos hmut]
  exact ⟨rfl, rfl, rfl, rfl, rfl⟩

/-- A storage engine that deletes everything, used to witness that the gate
shields the graph from whatever the engine would do. -/
def destructiveEngine : GraphDB → String → List (String × String) → List Row × GraphDB :=
  fun _ _ _ => ([], ⟨∅, ∅⟩)

/-- A plan whose single clause deletes nodes. -/
def deletionPlan : QueryPlan :=
  ⟨[⟨.deleteClause, .nodeTarget⟩], "MATCH (n) DETACH DELETE n", []⟩

/-- Concrete one-node graph used in the C2 witness. -/
def graphW : GraphDB :=
  ⟨(∅ : Finmap (fun _ : String × String × String => Instance)).insert
      ("p", "r1", "Customer") ⟨"p", "r1", "Customer", []⟩
  , ∅⟩

/-- Witness for C2: a node-deletion plan against a one-node graph fails with
`UnsafeQueryError` and leaves the graph untouched, even though the engine
behind the gate would have emptied it. -/
theorem query_gate_rejects_mutation_witness :
    (executeQueryPlan destructiveEngine graphW deletionPlan).1.status = .failed
    ∧ (executeQueryPlan destructiveEngine graphW deletionPlan).1.error =
        some "UnsafeQueryError"
    ∧ (executeQueryPlan destructiveEngine graphW deletionPlan).2 = graphW
    ∧ nodeCount (executeQueryPlan destructiveEngine graphW deletionPlan).2 =
        nodeCount graphW
    ∧ edgeCount (executeQueryPlan destructiveEngine graphW deletionPlan).2 =
        edgeCount graphW :=
  query_gate_rejects_mutation destructiveEngine graphW deletionPlan (by decide)

/-- C5: an accepted (non-mutating) plan is executed with bound parameters
only — the statement handed to the engine is the plan's statement and does
not depend on the parameter values — and the returned row set is capped at
the fixed limit `QUERY_ROW_LIMIT`. -/
theorem query_gate_bound_params_row_cap
    (engine : GraphDB → String → List (String × String) → List Row × GraphDB)
    (g : GraphDB) (p : QueryPlan) (hsafe : containsMutation p = false) :
    (executeQueryPlan engine g p).1.rows.length ≤ QUERY_ROW_LIMIT
    ∧ (∀ params1 params2 : List (String × String),
        sentStatement { p with parameters := params1 } =
        sentStatement { p with parameters := params2 })
    ∧ (executeQueryPlan engine g p).1.rows =
        (engine g (sentStatement p) p.parameters).1.take QUERY_ROW_LIMIT := by
  refine ⟨?_, fun _ _ => rfl, ?_⟩
  · unfold executeQueryPlan
    rw [if_neg (by simp [hsafe])]
    exact List.length_take_le _ _
  · unfold executeQueryPlan
    rw [if_neg (by simp [hsafe])]

/-- A read-only engine returning one constant row, for the C5 witness. -/
def readEngine : GraphDB → String → List (String × String) → List Row × GraphDB :=
  fun g _ _ => ([⟨"Customer", "r1"⟩], g)

/-- A plan with a single match clause and one bound parameter. -/
def readPlan : QueryPlan :=
  ⟨[⟨.matchClause, .nodeTarget⟩], "MATCH (n) RETURN n LIMIT 100", [("name", "Ada")]⟩

/-- Witness for C5: the read plan's rows come back capped at the limit and
its statement is independent of the bindings. -/
theorem query_gate_bound_params_row_cap_witness :
    (executeQueryPlan readEngine graphW readPlan).1.rows.length ≤ QUERY_ROW_LIMIT
    ∧ sentStatement { readPlan with parameters := [("name", "Ada")] } =
        sentStatement { readPlan with parameters := [] }
    ∧ (executeQueryPlan readEngine graphW readPlan).1.rows =
        (readEngine graphW (sentStatement readPlan) readPlan.parameters).1.take
          QUERY_ROW_LIMIT := by
  have h := query_gate_bound_params_row_cap readEngine graphW readPlan (by decide)
  exact ⟨h.1, h.2.1 [("name", "Ada")] [], h.2.2⟩

/-- `SemanticPrimitive` from `src/frontend/types.ts`; the `type` field holds
one of the literals `entity`, `attribute`, `relation`. -/
structure SemanticPrimitive where
  id : String
  label : String
  primType : String
  evidence : String
  confidence : ℚ
  sourceId : String
deriving DecidableEq, Repr

/-- `OntologyNode` from `src/frontend/types.ts`; `nodeType` holds one of the
literals `Class`, `RelationType`, `Property`. Optional fields are embedded
with their defaults. -/
structure OntologyNode where
  id : String
  label : String
  nodeType : String
  description : String
  reasoning : String
deriving DecidableEq, Repr

/-- `OntologyEdge` from `src/frontend/types.ts`. -/
structure OntologyEdge where
  id : String
  source : String
  target : String
  label : String
deriving DecidableEq, Repr

/-- `Ontology` from `src/frontend/types.ts`. -/
structure Ontology where
  version : String
  nodes : List OntologyNode
  edges : List OntologyEdge
deriving DecidableEq, Repr

/-- `WizardStep` from `src/frontend/types.ts`. -/
inductive WizardStep where
  | setup
  | frame
  | ingest
  | extractStep
  | propose
  | negotiate
  | graph
  | query
deriving DecidableEq, Repr

/-- The wizard component state of `src/frontend/components/ProjectWizard.tsx`
that the extraction and ontology handlers touch (`step`, `projectId`,
`primitives`, `ontology`, `isProcessing`, `currentJobId`). -/
structure WizardState where
  step : WizardStep
  projectId : Option String
  primitives : List SemanticPrimitive
  ontology : Option Ontology
  isProcessing : Bool
  currentJobId : Option String
deriving DecidableEq, Repr

/-- `startExtraction` from `src/frontend/components/ProjectWizard.tsx`
(lines 124-168), with the extraction API call's outcome passed in
(`extractCall`) and the undefined `MOCK_PRIMITIVES` value as a parameter.
Without a project it alerts and returns; on a successful call it records the
job id and stays processing (polling continues); when the call throws, the
catch block logs, substitutes the mock primitives, advances to the extract
step and stops processing — no exception leaves the handler. -/
def startExtraction (mockPrimitives : List SemanticPrimitive)
    (extractCall : Except String Job) (s : WizardState) : WizardState :=
  match s.projectId with
  | none => s
  | some _ =>
    match extractCall with
    | .ok job => { s with isProcessing := true, currentJobId := some job.id }
    | .error _ =>
      { s with isProcessing := false
             , primitives := mockPrimitives
             , step := .extractStep }

/-- `generateOntology` from `src/frontend/components/ProjectWizard.tsx`
(lines 170-239), with the generation API call's outcome passed in and the
undefined `MOCK_ONTOLOGY_V1` value as a parameter. Without a project it
alerts and returns; on a successful call it records the job id and stays
processing; when the call throws, the catch block logs, substitutes the mock
ontology, advances to the propose step and stops processing. -/
def generateOntology (mockOntology : Ontology)
    (genCall : Except String Job) (s : WizardState) : WizardState :=
  match s.projectId with
  | none => s
  | some _ =>
    match genCall with
    | .ok job => { s with isProcessing := true, currentJobId := some job.id }
    | .error _ =>
      { s with isProcessing := false
             , ontology := some mockOntology
             , step := .propose }

/-- Modelled from the spec: the job worker behind `Submit*` operations
(spec sections 4.3 and 7), which is not under `src/`: a capability failure
becomes a `failed` job carrying the failure message in `error`; a success
completes the job with its result. -/
def runWorker (capResult : Except String String) (j : Job) : Job :=
  match capResult with
  | .ok r => { j with status := .completed, result := some r }
  | .error e => { j with status := .failed, error := some e }

/-- Counterexample state for C3: a project exists, no primitives yet. -/
def wizardStateC3 : WizardState :=
  ⟨.ingest, some "p1", [], none, false, none⟩

/-- Counterexample mock data for C3: one substitute primitive. -/
def mockPrimitivesC3 : List SemanticPrimitive :=
  [⟨"m1", "MockEntity", "entity", "mock evidence", 9 / 10, "s0"⟩]

/-- Counterexample to C3 as stated: when the extraction capability fails, the
wizard does not surface the failure — it replaces the primitives with the
substitute `MOCK_PRIMITIVES` data, advances to the extract step and clears
the processing flag, exactly as if extraction had succeeded. -/
theorem extraction_failure_substitutes_mock :
    (startExtraction mockPrimitivesC3 (.error "LLM timeout") wizardStateC3).primitives
      ≠ wizardStateC3.primitives
    ∧ (startExtraction mockPrimitivesC3 (.error "LLM timeout") wizardStateC3).primitives
      = mockPrimitivesC3
    ∧ (startExtraction mockPrimitivesC3 (.error "LLM timeout") wizardStateC3).step
      = .extractStep
    ∧ (startExtraction mockPrimitivesC3 (.error "LLM timeout") wizardStateC3).isProcessing
      = false := by
  refine ⟨?_, rfl, rfl, rfl⟩
  decide

/-- C3 as amended: the job worker surfaces a capability failure as a `failed`
job carrying the message in its `error` field, and no exception escapes the
wizard handlers — they are total — but on a failed extraction or ontology
call the wizard swallows the failure and substitutes the mock data
(`MOCK_PRIMITIVES` / `MOCK_ONTOLOGY_V1`) instead of reporting it. -/
theorem capability_failure_surfaced_amended
    (j : Job) (e : String) (mockP : List SemanticPrimitive) (mockO : Ontology)
    (s : WizardState) (hproj : s.projectId ≠ none) :
    (runWorker (.error e) j).status = .failed
    ∧ (runWorker (.error e) j).error = some e
    ∧ (startExtraction mockP (.error e) s).primitives = mockP
    ∧ (startExtraction mockP (.error e) s).step = .extractStep
    ∧ (startExtraction mockP (.error e) s).isProcessing = false
    ∧ (generateOntology mockO (.error e) s).ontology = some mockO
    ∧ (generateOntology mockO (.error e) s).step = .propose
    ∧ (generateOntology mockO (.error e) s).isProcessing = false := by
  rcases hp : s.projectId with _ | pid
  · exact absurd hp hproj
  · exact ⟨rfl, rfl, by simp [startExtraction, hp], by simp [startExtraction, hp],
      by simp [startExtraction, hp], by simp [generateOntology, hp],
      by simp [generateOntology, hp], by simp [generateOntology, hp]⟩

/-- Concrete mock ontology for the C3 amended witness. -/
def mockOntologyW : Ontology := ⟨"1.0", [], []⟩

/-- Witness for the amended C3 at a concrete failing extraction and ontology
call on a state whose project exists. -/
theorem capability_failure_surfaced_amended_witness :
    (runWorker (.error "LLM timeout") jobW).status = .failed
    ∧ (runWorker (.error "LLM timeout") jobW).error = some "LLM timeout"
    ∧ (startExtraction mockPrimitivesC3 (.error "LLM timeout") wizardStateC3).primitives
        = mockPrimitivesC3
    ∧ (startExtraction mockPrimitivesC3 (.error "LLM timeout") wizardStateC3).step
        = .extractStep
    ∧ (startExtraction mockPrimitivesC3 (.error "LLM timeout") wizardStateC3).isProcessing
        = false
    ∧ (generateOntology mockOntologyW (.error "LLM timeout") wizardStateC3).ontology
        = some mockOntologyW
    ∧ (generateOntology mockOntologyW (.error "LLM timeout") wizardStateC3).step
        = .propose
    ∧ (generateOntology mockOntologyW (.error "LLM timeout") wizardStateC3).isProcessing
        = false :=
  capability_failure_surfaced_amended jobW "LLM timeout" mockPrimitivesC3
    mockOntologyW wizardStateC3 (by decide)

/-- A class property as the backend ontology payload carries it
(`cls.properties` with a `name` in the formatting code; spec section 3 adds
`type` and `required`). -/
structure BackendProperty where
  name : String
  propType : String
  required : Bool
deriving DecidableEq, Repr

/-- A backend ontology class as consumed by the formatting step of
`generateOntology` (`cls.name`, `cls.description`, `cls.properties`). -/
structure BackendClass where
  name : String
  description : String
  properties : List BackendProperty
deriving DecidableEq, Repr

/-- A backend relation type as consumed by the formatting step
(`rel.name`, `rel.description`, `rel.source_class`, `rel.target_class`). -/
structure BackendRelationType where
  name : String
  description : String
  source_class : String
  target_class : String
deriving DecidableEq, Repr

/-- The backend ontology payload (`result.ontology`) the wizard polls for:
`version`, `classes`, `relation_types`. -/
structure BackendOntology where
  version : String
  classes : List BackendClass
  relation_types : List BackendRelationType
deriving DecidableEq, Repr

/-- The node built for one class: id and label are the class name, type is
`Class`, reasoning joins the property names with a comma
(`ProjectWizard.tsx` lines 191-197). -/
def classNode (cls : BackendClass) : OntologyNode :=
  ⟨cls.name, cls.name, "Class", cls.description,
    String.intercalate ", " (cls.properties.map (fun p => p.name))⟩

/-- The node built for one relation type: id and label are the relation
name, type is `RelationType`, reasoning is `source -> target`
(`ProjectWizard.tsx` lines 198-204). -/
def relationNode (rel : BackendRelationType) : OntologyNode :=
  ⟨rel.name, rel.name, "RelationType", rel.description,
    rel.source_class ++ " -> " ++ rel.target_class⟩

/-- The edge built for one relation type: id is
`source_class ++ "-" ++ name ++ "-" ++ target_class`, endpoints are the
source and target class names (`ProjectWizard.tsx` lines 206-211). -/
def relationEdge (rel : BackendRelationType) : OntologyEdge :=
  ⟨rel.source_class ++ "-" ++ rel.name ++ "-" ++ rel.target_class,
    rel.source_class, rel.target_class, rel.name⟩

/-- `formattedOntology` from `generateOntology` in
`src/frontend/components/ProjectWizard.tsx` (lines 188-212): class nodes
concatenated with relation-type nodes, and one edge per relation type. -/
def formatOntology (o : BackendOntology) : Ontology :=
  { version := o.version
  , nodes := o.classes.map classNode ++ o.relation_types.map relationNode
  , edges := o.relation_types.map relationEdge }

/-- The ids of the nodes of a formatted ontology. -/
def nodeIds (ont : Ontology) : List String :=
  ont.nodes.map (fun n => n.id)

/-- The class names declared by a backend ontology. -/
def classNames (o : BackendOntology) : List String :=
  o.classes.map (fun c => c.name)

/-- The referential-integrity invariant of spec section 3: every relation
type's `source_class` and `target_class` name a class of the same version. -/
def refIntegrity (o : BackendOntology) : Bool :=
  o.relation_types.all
    (fun r => (classNames o).contains r.source_class
      && (classNames o).contains r.target_class)

/-- Every edge endpoint names an existing node of the formatted graph. -/
def edgesResolve (ont : Ontology) : Bool :=
  ont.edges.all
    (fun e => (nodeIds ont).contains e.source && (nodeIds ont).contains e.target)

/-- Backend ontology refuting the `exactly when` part of C8: the relation is
named like its missing target class, so its edge endpoints resolve (the
target resolves to the RelationType node `B`) although referential integrity
fails. -/
def ontologyC8 : BackendOntology :=
  ⟨"1", [⟨"A", "", []⟩], [⟨"B", "", "A", "B"⟩]⟩

/-- Counterexample to C8 as stated: edge endpoints resolving to existing
nodes is not equivalent to the referential-integrity invariant — on
`ontologyC8` all endpoints resolve, yet the invariant is violated. -/
theorem format_ontology_resolve_not_iff :
    ¬(edgesResolve (formatOntology ontologyC8) = true ↔ refIntegrity ontologyC8 = true) := by
  decide

/-- C8 as amended: formatting produces exactly one `Class` node per class
(keyed by its name) plus one `RelationType` node per relation type (keyed by
its name) — `classCount + relationCount` nodes in total — and exactly one
edge per relation type whose source, target, label and id come from
`source_class`, `target_class`, `name` and their `-`-joined concatenation;
and if the version satisfies the referential-integrity invariant then every
edge endpoint resolves to an existing node (the converse can fail, see
`ontologyC8`). -/
theorem format_ontology_shape (o : BackendOntology) :
    (formatOntology o).nodes.length = o.classes.length + o.relation_types.length
    ∧ (formatOntology o).edges.length = o.relation_types.length
    ∧ (∀ c ∈ o.classes, classNode c ∈ (formatOntology o).nodes
        ∧ (classNode c).id = c.name ∧ (classNode c).nodeType = "Class")
    ∧ (∀ r ∈ o.relation_types, relationNode r ∈ (formatOntology o).nodes
        ∧ (relationNode r).id = r.name ∧ (relationNode r).nodeType = "RelationType")
    ∧ (∀ e ∈ (formatOntology o).edges, ∃ r ∈ o.relation_types,
        e.source = r.source_class ∧ e.target = r.target_class ∧ e.label = r.name
        ∧ e.id = r.source_class ++ "-" ++ r.name ++ "-" ++ r.target_class)
    ∧ (refIntegrity o = true → edgesResolve (formatOntology o) = true) := by
  refine ⟨?_, ?_, ?_, ?_, ?_, ?_⟩
  · simp [formatOntology]
  · simp [formatOntology]
  · intro c hc
    exact ⟨List.mem_append_left _ (List.mem_map_of_mem classNode hc), rfl, rfl⟩
  · intro r hr
    exact ⟨List.mem_append_right _ (List.mem_map_of_mem relationNode hr), rfl, rfl⟩
  · intro e he
    rcases List.mem_map.mp he with ⟨r, hr, rfl⟩
    exact ⟨r, hr, rfl, rfl, rfl, rfl⟩
  · intro hri
    have hsub : ∀ a : String, (classNames o).contains a = true →
        (nodeIds (formatOntology o)).contains a = true := by
      intro a ha
      simp only [List.contains, List.elem_iff] at ha ⊢
      rcases List.mem_map.mp ha with ⟨c, hc, rfl⟩
      exact List.mem_map.mpr ⟨classNode c,
        List.mem_append_left _ (List.mem_map_of_mem classNode hc), rfl⟩
    rw [edgesResolve, List.all_eq_true]
    intro e he
    rcases List.mem_map.mp he with ⟨r, hr, rfl⟩
    rw [refIntegrity, List.all_eq_true] at hri
    have hr2 := hri r hr
    rw [Bool.and_eq_true] at hr2
    rw [Bool.and_eq_true]
    exact ⟨hsub _ hr2.1, hsub _ hr2.2⟩

/-- The spec section 8 example ontology: classes `Customer` and `Order`,
relation `Order -> PLACED_BY -> Customer`. -/
def ontologyW : BackendOntology :=
  ⟨"1", [⟨"Customer", "", []⟩, ⟨"Order", "", []⟩],
    [⟨"PLACED_BY", "", "Order", "Customer"⟩]⟩

/-- Witness for the amended C8 on the spec's own example: three nodes, one
edge, both per-element descriptions, and — the invariant holding — resolving
endpoints. -/
theorem format_ontology_shape_witness :
    (formatOntology ontologyW).nodes.length = 3
    ∧ (formatOntology ontologyW).edges.length = 1
    ∧ (classNode ⟨"Customer", "", []⟩ ∈ (formatOntology ontologyW).nodes
        ∧ (classNode ⟨"Customer", "", []⟩).id = "Customer"
        ∧ (classNode ⟨"Customer", "", []⟩).nodeType = "Class")
    ∧ (relationNode ⟨"PLACED_BY", "", "Order", "Customer"⟩ ∈ (formatOntology ontologyW).nodes
        ∧ (relationNode ⟨"PLACED_BY", "", "Order", "Customer"⟩).id = "PLACED_BY"
        ∧ (relationNode ⟨"PLACED_BY", "", "Order", "Customer"⟩).nodeType = "RelationType")
    ∧ edgesResolve (formatOntology ontologyW) = true := by
  have h := format_ontology_shape ontologyW
  refine ⟨?_, ?_, ?_, ?_, h.2.2.2.2.2 (by decide)⟩
  · exact h.1.trans (by decide)
  · exact h.2.1.trans (by decide)
  · exact h.2.2.1 ⟨"Customer", "", []⟩ (by decide)
  · exact h.2.2.2.1 ⟨"PLACED_BY", "", "Order", "Customer"⟩ (by decide)

/-- The observable state of the `usePolling` hook
(`src/unnamed/part_000`): `job`, `error`, `isPolling`. -/
structure PollState where
  job : Option Job
  error : Option String
  isPolling : Bool
deriving DecidableEq, Repr

/-- The externally visible effects of one `poll` invocation: whether a
request was issued and which callback fired. -/
structure PollEffects where
  requested : Bool
  onCompleteCalled : Bool
  onErrorCalled : Bool
deriving DecidableEq, Repr

/-- `poll` from the `usePolling` hook (`src/unnamed/part_000`, lines 39-65),
with the `getJobStatus` outcome passed in as `fetch` and the presence of the
`onComplete` / `onError` callbacks as booleans. A `null` job id returns at
once; a fetched job is stored, and a terminal status stops polling and fires
`onComplete` (completed) or `onError` (failed); a fetch error is stored,
stops polling and fires `onError`. -/
def poll (jobId : Option String) (hasOnComplete hasOnError : Bool)
    (fetch : Except String Job) (s : PollState) : PollState × PollEffects :=
  match jobId with
  | none => (s, ⟨false, false, false⟩)
  | some _ =>
    match fetch with
    | .ok js =>
      let s1 := { s with job := some js }
      if js.status == .completed || js.status == .failed then
        ({ s1 with isPolling := false },
          ⟨true, js.status == .completed && hasOnComplete,
            js.status == .failed && hasOnError⟩)
      else
        (s1, ⟨true, false, false⟩)
    | .error e =>
      ({ s with error := some e, isPolling := false }, ⟨true, false, hasOnError⟩)

/-- C9: with a `null` job id, `poll` issues no request and leaves the hook
state (`job`, `error`, `isPolling`) untouched; and whenever a poll fetches a
job in a terminal status, `isPolling` becomes `false`, `onComplete` fires
exactly for a `completed` job (when the callback is given) and `onError`
fires exactly for a `failed` job (when the callback is given). -/
theorem use_polling_poll_spec (jobId : Option String)
    (hasOnComplete hasOnError : Bool) (fetch : Except String Job)
    (s : PollState) :
    (jobId = none →
      poll jobId hasOnComplete hasOnError fetch s = (s, ⟨false, false, false⟩))
    ∧ (∀ jid js, jobId = some jid → fetch = .ok js →
        js.status = .completed ∨ js.status = .failed →
        (poll jobId hasOnComplete hasOnError fetch s).1.isPolling = false
        ∧ ((poll jobId hasOnComplete hasOnError fetch s).2.onCompleteCalled = true
            ↔ js.status = .completed ∧ hasOnComplete = true)
        ∧ ((poll jobId hasOnComplete hasOnError fetch s).2.onErrorCalled = true
            ↔ js.status = .failed ∧ hasOnError = true)) := by
  constructor
  · intro hnone
    rw [hnone]
    rfl
  · intro jid js hsome hok hterm
    rw [hsome, hok]
    rcases hterm with h | h <;> cases hasOnComplete <;> cases hasOnError <;>
      simp [poll, h]

/-- Concrete completed job fetched in the C9 witness. -/
def jobDoneW : Job :=
  ⟨"j2", "p", "propose_ontology", .completed, 1, some "v2", none, "t0", some "t1", some "t2"⟩

/-- Concrete hook state before the C9 witness polls. -/
def pollStateW : PollState := ⟨none, none, true⟩

/-- Witness for C9: polling with a `null` id changes nothing and issues no
request, and polling a completed job with both callbacks present stops
polling, fires `onComplete` and does not fire `onError`. -/
theorem use_polling_poll_spec_witness :
    poll none true true (.ok jobDoneW) pollStateW = (pollStateW, ⟨false, false, false⟩)
    ∧ (poll (some "j2") true true (.ok jobDoneW) pollStateW).1.isPolling = false
    ∧ (poll (some "j2") true true (.ok jobDoneW) pollStateW).2.onCompleteCalled = true
    ∧ (poll (some "j2") true true (.ok jobDoneW) pollStateW).2.onErrorCalled = false := by
  have h1 := use_polling_poll_spec none true true (.ok jobDoneW) pollStateW
  have h2 := use_polling_poll_spec (some "j2") true true (.ok jobDoneW) pollStateW
  have h3 := h2.2 "j2" jobDoneW rfl rfl (Or.inl rfl)
  refine ⟨h1.1 rfl, h3.1, h3.2.1.mpr ⟨rfl, rfl⟩, ?_⟩
  have h4 := h3.2.2
  by_contra hc
  rw [Bool.not_eq_false] at hc
  rcases h4.mp hc with ⟨hfail, _⟩
  cases hfail
